import Mathlib

namespace LogsReceiver

/-- JSON value tree as decoded by Go's encoding/json into an empty interface.
The constructor `null` plays the role of the Go nil interface value (JSON null
decodes to the nil interface). Go numbers decode to float64; they are carried
here as rationals, and no claim depends on floating-point rounding. Go maps are
modelled as association lists with unique keys. -/
inductive JSONValue where
  | null
  | bool (b : Bool)
  | num (q : Rat)
  | str (s : String)
  | arr (elems : List JSONValue)
  | obj (entries : List (String × JSONValue))

/-- Left and right part around the first dot, mirroring Go's
strings.SplitN(path, ".", 2) on the character list: none when no dot occurs. -/
def splitN2Chars : List Char → Option (List Char × List Char)
  | [] => none
  | c :: rest =>
    if c = '.' then some ([], rest)
    else
      match splitN2Chars rest with
      | none => none
      | some (pre, post) => some (c :: pre, post)

/-- Head segment and remaining tail of a dot path, as computed by
strings.SplitN(path, ".", 2) in extractValueByPath: the whole path and "" when
the path has no dot. -/
def headTail (path : String) : String × String :=
  match splitN2Chars path.toList with
  | none => (path, "")
  | some (pre, post) => (String.mk pre, String.mk post)

/-- First-match association-list lookup; models Go map indexing (map keys are unique). -/
def lookupKey {α : Type} (k : String) : List (String × α) → Option α
  | [] => none
  | (k', v) :: rest => if k' = k then some v else lookupKey k rest

mutual

/-- Go extractValueByPath: resolves a dot-separated path in a decoded JSON tree.
An empty path or a nil node yields nil (JSONValue.null); a mapping looks up the
head segment and recurses with the tail; a sequence recurses with the full
unmodified path into every element and aggregates; any other node yields nil. -/
def extractValueByPath (path : String) (raw : JSONValue) : JSONValue :=
  if path = "" then .null
  else
    match raw with
    | .obj entries => extractObjEntries (headTail path).1 (headTail path).2 entries
    | .arr elems =>
      match extractMany path elems with
      | [] => .null
      | results => .arr results
    | _ => .null

/-- Association-list walk realizing the Go map lookup node[head] of
extractValueByPath followed by the recursion on the tail path when present. -/
def extractObjEntries (head tail : String) : List (String × JSONValue) → JSONValue
  | [] => .null
  | (k, v) :: rest =>
    if k = head then
      (if tail = "" then v else extractValueByPath tail v)
    else extractObjEntries head tail rest

/-- Per-element aggregation of the Go slice case of extractValueByPath:
nil results are skipped, slice results are spliced, other results appended. -/
def extractMany (path : String) : List JSONValue → List JSONValue
  | [] => []
  | el :: rest =>
    (match extractValueByPath path el with
     | .null => []
     | .arr vs => vs
     | v => [v]) ++ extractMany path rest

end

/-- Aggregate of per-element extraction results in the words of the spec:
collect the non-null results, splicing (flattening one level) any result that
is itself a sequence instead of nesting it. Stated over the list of results so
the sequence case of extractValueByPath can be compared against it. -/
def collectSplice (results : List JSONValue) : List JSONValue :=
  results.foldr
    (fun v acc =>
      match v with
      | .null => acc
      | .arr vs => vs ++ acc
      | v => v :: acc)
    []

/-- Two-element users array of the spec example: mappings whose company names
are A and B. -/
def exampleUsers : List JSONValue :=
  [.obj [("company", .obj [("name", .str "A")])],
   .obj [("company", .obj [("name", .str "B")])]]

/-- ASCII lowercasing of a string, modelling strings.ToLower on the inputs the
receiver compares (the severity keywords and content types are ASCII). -/
def toLowerStr (s : String) : String :=
  String.mk (s.toList.map Char.toLower)

/-- ASCII uppercasing of a string, modelling strings.ToUpper for severity text. -/
def toUpperStr (s : String) : String :=
  String.mk (s.toList.map Char.toUpper)

/-- White-space test of Go's unicode.IsSpace for the Latin-1 range: space, tab,
newline, vertical tab, form feed, carriage return, next line, no-break space. -/
def isSpaceGo (c : Char) : Bool :=
  [32, 9, 10, 11, 12, 13, 133, 160].contains c.toNat

/-- Surrounding-whitespace trim on a character list. -/
def trimCharsGo (l : List Char) : List Char :=
  ((l.dropWhile isSpaceGo).reverse.dropWhile isSpaceGo).reverse

/-- Models strings.TrimSpace. -/
def trimStr (s : String) : String :=
  String.mk (trimCharsGo s.toList)

/-- Split on a single separator character, modelling strings.Split with a
one-character separator: n separators yield n+1 fields, empty fields kept. -/
def splitChar (sep : Char) : List Char → List (List Char)
  | [] => [[]]
  | c :: cs =>
    let r := splitChar sep cs
    if c = sep then [] :: r
    else
      match r with
      | [] => [[c]]
      | h :: t => (c :: h) :: t

/-- Models strings.HasPrefix via the character lists. -/
def strStartsWith (s pat : String) : Bool :=
  pat.toList.isPrefixOf s.toList

/-- Substring membership on character lists. -/
def containsSubAux (pat : List Char) : List Char → Bool
  | [] => pat.isEmpty
  | c :: rest => pat.isPrefixOf (c :: rest) || containsSubAux pat rest

/-- Models strings.Contains. -/
def containsSub (s pat : String) : Bool :=
  containsSubAux pat.toList s.toList


/-- Structured log-record value, modelling the pcommon.Value shapes the receiver
produces: string, double, bool, keyed map and slice. -/
inductive PValue where
  | str (s : String)
  | double (q : Rat)
  | bool (b : Bool)
  | map (entries : List (String × PValue))
  | slice (elems : List PValue)

mutual

/-- Go setBodyValue: recursively populates a structured log value from a decoded
JSON tree. Objects become keyed maps, arrays become slices, strings, numbers and
bools keep their shape, and JSON null becomes the literal string "null". The Go
default case (fmt.Sprintf) is unreachable for values decoded by encoding/json,
whose shapes the JSONValue constructors enumerate. -/
def setBodyValue : JSONValue → PValue
  | .obj entries => .map (setBodyEntries entries)
  | .arr elems => .slice (setBodyElems elems)
  | .str s => .str s
  | .num q => .double q
  | .bool b => .bool b
  | .null => .str "null"

/-- Keyed children conversion of setBodyValue for object entries. -/
def setBodyEntries : List (String × JSONValue) → List (String × PValue)
  | [] => []
  | (k, v) :: rest => (k, setBodyValue v) :: setBodyEntries rest

/-- Element conversion of setBodyValue for array elements. -/
def setBodyElems : List JSONValue → List PValue
  | [] => []
  | v :: rest => setBodyValue v :: setBodyElems rest

end


mutual

/-- Default string rendering of an extracted value, modelling fmt.Sprintf with
the v verb on a decoded JSON value: strings print verbatim, bools as true/false,
slices bracketed and space-separated, maps in Go map syntax. Numeric formatting
approximates Go's float formatting by the rational's decimal form; no claim
depends on numeric or map rendering. -/
def renderValue : JSONValue → String
  | .null => "<nil>"
  | .bool b => if b then "true" else "false"
  | .num q => toString q
  | .str s => s
  | .arr elems => "[" ++ renderList elems ++ "]"
  | .obj entries => "map[" ++ renderEntries entries ++ "]"

/-- Space-separated rendering of slice elements for renderValue. -/
def renderList : List JSONValue → String
  | [] => ""
  | [v] => renderValue v
  | v :: rest => renderValue v ++ " " ++ renderList rest

/-- Space-separated key:value rendering of map entries for renderValue. -/
def renderEntries : List (String × JSONValue) → String
  | [] => ""
  | [(k, v)] => k ++ ":" ++ renderValue v
  | (k, v) :: rest => k ++ ":" ++ renderValue v ++ " " ++ renderEntries rest

end


/-- Bounded severity enumeration, modelling plog.SeverityNumber restricted to
the values the receiver produces. -/
inductive SeverityNumber where
  | trace
  | debug
  | info
  | warn
  | error
  | fatal
deriving DecidableEq

/-- Go getSeverityNumber: switch on the lowercased level string; the warn and
warning cases share one branch and every unmatched string falls to info. -/
def getSeverityNumber (level : String) : SeverityNumber :=
  if toLowerStr level = "trace" then .trace
  else if toLowerStr level = "debug" then .debug
  else if toLowerStr level = "info" then .info
  else if toLowerStr level = "warn" then .warn
  else if toLowerStr level = "warning" then .warn
  else if toLowerStr level = "error" then .error
  else if toLowerStr level = "fatal" then .fatal
  else .info

/-- One polling target, mirroring the Go targetConfig struct. Header and label
maps are association lists; Go map iteration order is unspecified, so list order
stands in for one iteration order. -/
structure targetConfig where
  Endpoint : String
  Method : String
  Body : String
  Headers : List (String × String)
  ServiceName : String
  LogLevel : String
  Labels : List (String × String)

/-- Top-level receiver configuration, mirroring the Go Config struct. The
collection interval is a time.Duration, carried in nanoseconds. -/
structure Config where
  CollectionInterval : Int
  Targets : List targetConfig

/-- One emitted log record: severity text and number, the label-derived string
attributes, and the body value. The wall-clock timestamp the Go code stamps is
outside this pure model. -/
structure LogEntry where
  severityText : String
  severityNumber : SeverityNumber
  attributes : List (String × String)
  body : PValue

/-- One poll's resource-scoped batch: the resource attributes and the log
records of its single scope. -/
structure LogBatch where
  resourceAttributes : List (String × String)
  entries : List LogEntry

/-- Label attributes of addLogRecord: for each (key, path) label, the attribute
is the rendered extracted value, or the literal "NOT FOUND" when extraction
returned the nil interface. -/
def labelAttributes (data : JSONValue) (labels : List (String × String)) :
    List (String × String) :=
  labels.map fun p =>
    (p.1,
      match extractValueByPath p.2 data with
      | .null => "NOT FOUND"
      | v => renderValue v)

/-- Go addLogRecord: builds the single JSON-branch log record with severity from
the target's configured level, label attributes via path extraction, and the
converted structural body. -/
def addLogRecord (data : JSONValue) (target : targetConfig) : LogEntry :=
  { severityText := toUpperStr target.LogLevel
    severityNumber := getSeverityNumber target.LogLevel
    attributes := labelAttributes data target.Labels
    body := setBodyValue data }

/-- Go parseJSONLogs applied to an already decoded JSON tree: one resource with
endpoint and service.name attributes, one scope, and exactly the one record
addLogRecord appends. -/
def parseJSONLogs (jsonData : JSONValue) (target : targetConfig) : LogBatch :=
  { resourceAttributes := [("endpoint", target.Endpoint), ("service.name", target.ServiceName)]
    entries := [addLogRecord jsonData target] }

/-- One text-branch log record of parseTextLogs: body is the surviving trimmed
line, severity text and number come from the target's configured level. -/
def textLogEntry (target : targetConfig) (t : String) : LogEntry :=
  { severityText := toUpperStr target.LogLevel
    severityNumber := getSeverityNumber target.LogLevel
    attributes := []
    body := .str t }

/-- Go parseTextLogs: one resource carrying service.name, endpoint and the
target labels verbatim; the body splits on newline, each line is trimmed, empty
lines are skipped, and each surviving line becomes one record whose body is the
trimmed line with severity from the target's configured level. -/
def parseTextLogs (body : String) (target : targetConfig) : LogBatch :=
  { resourceAttributes :=
      [("service.name", target.ServiceName), ("endpoint", target.Endpoint)] ++ target.Labels
    entries :=
      ((splitChar '\n' body.toList).map String.mk).filterMap fun line =>
        if trimStr line = "" then none
        else some (textLogEntry target (trimStr line)) }

/-- Go parseLogs: case-insensitive substring dispatch on the response
Content-Type. A type containing application/json decodes JSON (a decode failure
is a hard error); the text case and the default case both run the text parser.
The encoding/json decoder is external to this repository and is passed in as
the decode argument. -/
def parseLogs (decode : String → Option JSONValue) (contentType body : String)
    (target : targetConfig) : Except String LogBatch :=
  let ct := toLowerStr contentType
  if containsSub ct "application/json" then
    match decode body with
    | none => .error "failed to unmarshal JSON"
    | some j => .ok (parseJSONLogs j target)
  else .ok (parseTextLogs body target)

/-- Valid MIME header-name byte test of Go's textproto package: letters, digits
and the token punctuation set. -/
def isTokenChar (c : Char) : Bool :=
  c.isAlphanum || [33, 35, 36, 37, 38, 39, 42, 43, 45, 46, 94, 95, 96, 124, 126].contains c.toNat

/-- Character walk of the MIME canonical form: uppercase at the start and after
each dash, lowercase elsewhere. -/
def canonChars : Bool → List Char → List Char
  | _, [] => []
  | up, c :: rest =>
    if c = '-' then c :: canonChars true rest
    else (if up then c.toUpper else c.toLower) :: canonChars false rest

/-- Models textproto.CanonicalMIMEHeaderKey, which http.Header.Set and Get apply
to the key: canonicalize when every byte is a valid header-name byte, otherwise
return the key unchanged. -/
def canonicalHeaderKey (s : String) : String :=
  if s.toList.all isTokenChar then String.mk (canonChars true s.toList)
  else s

/-- Models http.Header.Set: replace every value stored under the canonical key
with the single given value. -/
def headerSet (hs : List (String × String)) (k v : String) : List (String × String) :=
  hs.filter (fun p => p.1 ≠ canonicalHeaderKey k) ++ [(canonicalHeaderKey k, v)]

/-- Models http.Header.Get: first value under the canonical key, or "" when the
header is absent. -/
def headerGet (hs : List (String × String)) (k : String) : String :=
  (lookupKey (canonicalHeaderKey k) hs).getD ""

/-- Header state after the createRequest loop that Sets every target header. -/
def applyHeaders (hs : List (String × String)) : List (String × String) :=
  hs.foldl (fun acc p => headerSet acc p.1 p.2) []

/-- Outbound HTTP request as built by createRequest: method, URL, optional body
reader and header map. -/
structure Request where
  method : String
  url : String
  body : Option String
  headers : List (String × String)

/-- Go createRequest: attach a body reader only when target.Body is non-empty,
Set every target header, and when a body is present and no Content-Type header
was set, infer application/json when the trimmed body starts with an opening
brace and text/plain otherwise. The method/URL validity check of
http.NewRequestWithContext is external and not claim-relevant. -/
def createRequest (target : targetConfig) : Request :=
  { method := target.Method
    url := target.Endpoint
    body := if target.Body = "" then none else some target.Body
    headers :=
      if target.Body ≠ "" ∧ headerGet (applyHeaders target.Headers) "Content-Type" = "" then
        if strStartsWith (trimStr target.Body) "\x7b" then
          headerSet (applyHeaders target.Headers) "Content-Type" "application/json"
        else headerSet (applyHeaders target.Headers) "Content-Type" "text/plain"
      else applyHeaders target.Headers }

/-- HTTP response as pollTarget consumes it: numeric status code, status text,
Content-Type header and full body. -/
structure HTTPResponse where
  statusCode : Nat
  status : String
  contentType : String
  body : String

/-- Batches of a poll outcome delivered to the sink: none on error, and only
non-empty parses otherwise. -/
def delivered (r : Except String (List LogBatch)) : List LogBatch :=
  match r with
  | .ok bs => bs
  | .error _ => []

/-- Go pollTarget after the request was executed: a transport failure or a
status code of at least 400 is a hard error (the latter carrying code and
status text); otherwise the body is parsed, a parse failure is an error, and
the batch is handed to the sink only when it has at least one record. The
result lists the batches delivered to the sink, with the sink accepting. -/
def pollTarget (decode : String → Option JSONValue) (target : targetConfig)
    (response : Except String HTTPResponse) : Except String (List LogBatch) :=
  match response with
  | .error e => .error ("failed to execute request: " ++ e)
  | .ok resp =>
    if resp.statusCode ≥ 400 then
      .error ("HTTP error: " ++ toString resp.statusCode ++ " " ++ resp.status)
    else
      match parseLogs decode resp.contentType resp.body target with
      | .error e => .error ("failed to parse logs: " ++ e)
      | .ok logs =>
        if logs.entries.length > 0 then .ok [logs] else .ok []

/-- Scheme scan of the Go standard library's net/url getScheme: letters extend
the scheme; digits, plus, minus and dot extend it except at the start, where
they end the scan with no scheme; a colon at the start is the one error (none),
and a colon later splits scheme and rest; any other byte ends the scan with no
scheme and the whole input as rest. -/
def getSchemeAux (orig : String) (acc : List Char) : List Char → Option (String × String)
  | [] => some ("", orig)
  | c :: rest =>
    if c.isAlpha then getSchemeAux orig (acc ++ [c]) rest
    else if c.isDigit || c = '+' || c = '-' || c = '.' then
      (if acc.isEmpty then some ("", orig) else getSchemeAux orig (acc ++ [c]) rest)
    else if c = ':' then
      (if acc.isEmpty then none else some (String.mk acc, String.mk rest))
    else some ("", orig)

/-- Scheme and remainder of a raw URL per net/url getScheme; none models the
missing-protocol-scheme error. -/
def getScheme (rawURL : String) : Option (String × String) :=
  getSchemeAux rawURL [] rawURL.toList

/-- Success behavior of the Go standard library's url.ParseRequestURI, the
parser targetConfig.Validate delegates to. The control-byte check, the empty
check, the asterisk form, the scheme scan and the absolute-path/opaque
classification are exact: input with no scheme is accepted only when the part
before any query starts with a slash, and input with a scheme is always
accepted (a rootless remainder is stored opaque). The deeper authority and path
sub-validation (ports, percent escapes) is treated as succeeding, which is
exact for every endpoint free of escapes and exotic host bytes. -/
def parseRequestURIOk (rawURL : String) : Bool :=
  if rawURL.toList.any (fun c => c.toNat < 32 || c.toNat = 127) then false
  else if rawURL = "" then false
  else if rawURL = "*" then true
  else
    match getScheme rawURL with
    | none => false
    | some (scheme, rest) =>
      if strStartsWith (String.mk (rest.toList.takeWhile (fun c => c ≠ '?'))) "/" then true
      else decide (scheme ≠ "")

/-- Go targetConfig.Validate: a distinct error for a missing endpoint, a
distinct error when request-URI parsing rejects the endpoint, and otherwise the
defaults GET, logs-receiver and info filled into the empty fields in place
(modelled by returning the updated target). -/
def targetConfig.Validate (cfg : targetConfig) : Except String targetConfig :=
  if cfg.Endpoint = "" then .error "endpoint must be specified"
  else if parseRequestURIOk cfg.Endpoint then
    .ok
      { cfg with
        Method := if cfg.Method = "" then "GET" else cfg.Method
        ServiceName := if cfg.ServiceName = "" then "logs-receiver" else cfg.ServiceName
        LogLevel := if cfg.LogLevel = "" then "info" else cfg.LogLevel }
  else .error "\"endpoint\" must be in the form of <scheme>://<hostname>[:<port>]"

/-- Per-target loop of Config.Validate: first failing target's error wins. -/
def validateTargets : List targetConfig → Except String (List targetConfig)
  | [] => .ok []
  | t :: rest =>
    match t.Validate with
    | .error e => .error e
    | .ok t' =>
      match validateTargets rest with
      | .error e => .error e
      | .ok rest' => .ok (t' :: rest')

/-- Go Config.Validate: a distinct error when the targets list is empty; a
collection interval of at most zero is coerced to the 30s default (in
nanoseconds); every target is then validated in order. -/
def Config.Validate (cfg : Config) : Except String Config :=
  if cfg.Targets.isEmpty then .error "no targets configured"
  else
    match validateTargets cfg.Targets with
    | .error e => .error e
    | .ok ts =>
      .ok
        { CollectionInterval :=
            if cfg.CollectionInterval ≤ 0 then 30000000000 else cfg.CollectionInterval
          Targets := ts }

/-- Length of a slice-shaped structural value; zero on every other shape. -/
def sliceLen : PValue → Nat
  | .slice l => l.length
  | _ => 0

theorem setBodyEntries_eq_map (l : List (String × JSONValue)) :
    setBodyEntries l = l.map (fun p => (p.1, setBodyValue p.2)) := by
  induction l with
  | nil => rfl
  | cons p rest ih => obtain ⟨k, v⟩ := p; simp [setBodyEntries, ih]

theorem setBodyElems_eq_map (l : List JSONValue) :
    setBodyElems l = l.map setBodyValue := by
  induction l with
  | nil => rfl
  | cons v rest ih => simp [setBodyElems, ih]

theorem extractMany_eq_collectSplice (path : String) (l : List JSONValue) :
    extractMany path l = collectSplice (l.map (extractValueByPath path)) := by
  induction l with
  | nil => rfl
  | cons el rest ih =>
    simp only [extractMany, List.map_cons, collectSplice, List.foldr_cons, ih]
    rcases extractValueByPath path el <;> rfl

/-- C5: getSeverityNumber is a pure total function on strings that depends only
on the lowercased input (hence case-insensitive), identifies WARNING with warn,
maps every input whose lowercasing is outside the fixed keyword set (and the
empty string in particular) to info, and maps each keyword to its severity. -/
theorem getSeverityNumber_spec :
    (∀ s t : String, toLowerStr s = toLowerStr t → getSeverityNumber s = getSeverityNumber t) ∧
    getSeverityNumber "WARNING" = getSeverityNumber "warn" ∧
    getSeverityNumber "" = SeverityNumber.info ∧
    (∀ s : String,
        toLowerStr s ∉ ["trace", "debug", "info", "warn", "warning", "error", "fatal"] →
        getSeverityNumber s = SeverityNumber.info) ∧
    getSeverityNumber "Trace" = SeverityNumber.trace ∧
    getSeverityNumber "DEBUG" = SeverityNumber.debug ∧
    getSeverityNumber "info" = SeverityNumber.info ∧
    getSeverityNumber "warn" = SeverityNumber.warn ∧
    getSeverityNumber "Warning" = SeverityNumber.warn ∧
    getSeverityNumber "ERROR" = SeverityNumber.error ∧
    getSeverityNumber "fatal" = SeverityNumber.fatal := by
  refine ⟨?_, rfl, rfl, ?_, rfl, rfl, rfl, rfl, rfl, rfl, rfl⟩
  · intro s t h
    unfold getSeverityNumber
    rw [h]
  · intro s h
    unfold getSeverityNumber
    split_ifs with h1 h2 h3 h4 h5 h6 h7
    · exact (h (by rw [h1]; decide)).elim
    · exact (h (by rw [h2]; decide)).elim
    · exact (h (by rw [h3]; decide)).elim
    · exact (h (by rw [h4]; decide)).elim
    · exact (h (by rw [h5]; decide)).elim
    · exact (h (by rw [h6]; decide)).elim
    · exact (h (by rw [h7]; decide)).elim
    · rfl

/-- Witness for C5 at concrete inputs: mixed-case info agrees with uppercase
info by case-insensitivity, and an unrecognized level falls back to info. -/
theorem getSeverityNumber_spec_witness :
    getSeverityNumber "InFo" = getSeverityNumber "INFO" ∧
    getSeverityNumber "unrecognized" = SeverityNumber.info :=
  ⟨getSeverityNumber_spec.1 "InFo" "INFO" (by decide),
   getSeverityNumber_spec.2.2.2.1 "unrecognized" (by decide)⟩

/-- C6: the structural body conversion sends JSON null to the literal string
"null"; objects become keyed structural values whose keys are preserved in
order, arrays become sequences of recursively converted values, and a null
nested at depth (here under a key, inside an array) still renders as "null". -/
theorem setBodyValue_spec :
    ∀ (fields : List (String × JSONValue)) (elems : List JSONValue),
      setBodyValue JSONValue.null = PValue.str "null" ∧
      setBodyValue (.obj fields) = .map (fields.map (fun p => (p.1, setBodyValue p.2))) ∧
      (setBodyEntries fields).map Prod.fst = fields.map Prod.fst ∧
      setBodyValue (.arr elems) = .slice (elems.map setBodyValue) ∧
      setBodyValue (.obj [("a", .arr [.null])]) = .map [("a", .slice [.str "null"])] := by
  intro fields elems
  refine ⟨rfl, ?_, ?_, ?_, rfl⟩
  · rw [show setBodyValue (.obj fields) = .map (setBodyEntries fields) from rfl,
      setBodyEntries_eq_map]
  · rw [setBodyEntries_eq_map]
    simp
  · rw [show setBodyValue (.arr elems) = .slice (setBodyElems elems) from rfl,
      setBodyElems_eq_map]

/-- C2: under a JSON content-type a decoded payload yields exactly one LogEntry
whatever the shape of the top-level value; a top-level array yields one entry
whose body is the sequence of the converted elements, with sequence length
equal to the array length, and a top-level object yields one entry whose body
mirrors the object tree. -/
theorem parseJSONLogs_single_entry :
    ∀ (decode : String → Option JSONValue) (ct body : String) (target : targetConfig)
      (j : JSONValue) (elems : List JSONValue) (fields : List (String × JSONValue)),
      (containsSub (toLowerStr ct) "application/json" = true → decode body = some j →
        parseLogs decode ct body target = .ok (parseJSONLogs j target)) ∧
      (parseJSONLogs j target).entries.length = 1 ∧
      (parseJSONLogs (.arr elems) target).entries.map LogEntry.body =
        [PValue.slice (elems.map setBodyValue)] ∧
      ((parseJSONLogs (.arr elems) target).entries.map fun e => sliceLen e.body) =
        [elems.length] ∧
      (parseJSONLogs (.obj fields) target).entries.map LogEntry.body =
        [PValue.map (fields.map fun p => (p.1, setBodyValue p.2))] := by
  intro decode ct body target j elems fields
  refine ⟨?_, rfl, ?_, ?_, ?_⟩
  · intro hct hdec
    simp [parseLogs, hct, hdec]
  · simp only [parseJSONLogs, addLogRecord, List.map_cons, List.map_nil]
    rw [show setBodyValue (.arr elems) = .slice (setBodyElems elems) from rfl,
      setBodyElems_eq_map]
  · simp only [parseJSONLogs, addLogRecord, List.map_cons, List.map_nil]
    rw [show setBodyValue (.arr elems) = .slice (setBodyElems elems) from rfl,
      setBodyElems_eq_map]
    simp [sliceLen]
  · simp only [parseJSONLogs, addLogRecord, List.map_cons, List.map_nil]
    rw [show setBodyValue (.obj fields) = .map (setBodyEntries fields) from rfl,
      setBodyEntries_eq_map]

/-- Witness for C2 at a concrete two-element array payload under a JSON
content-type: parsing dispatches to the JSON branch and the one entry's body is
a two-element sequence. -/
theorem parseJSONLogs_single_entry_witness :
    parseLogs (fun _ => some (.arr [.obj [("id", .num 1)], .obj [("id", .num 2)]]))
        "application/json" "ignored"
        ⟨"http://e", "GET", "", [], "svc", "info", []⟩ =
      .ok (parseJSONLogs (.arr [.obj [("id", .num 1)], .obj [("id", .num 2)]])
        ⟨"http://e", "GET", "", [], "svc", "info", []⟩) ∧
    (parseJSONLogs (.arr [.obj [("id", .num 1)], .obj [("id", .num 2)]])
        ⟨"http://e", "GET", "", [], "svc", "info", []⟩).entries.length = 1 ∧
    ((parseJSONLogs (.arr [.obj [("id", .num 1)], .obj [("id", .num 2)]])
        ⟨"http://e", "GET", "", [], "svc", "info", []⟩).entries.map fun e => sliceLen e.body) =
      [2] := by
  have h :=
    parseJSONLogs_single_entry (fun _ => some (.arr [.obj [("id", .num 1)], .obj [("id", .num 2)]]))
      "application/json" "ignored" ⟨"http://e", "GET", "", [], "svc", "info", []⟩
      (.arr [.obj [("id", .num 1)], .obj [("id", .num 2)]])
      [.obj [("id", .num 1)], .obj [("id", .num 2)]] []
  exact ⟨h.1 (by decide) rfl, h.2.1, h.2.2.2.1⟩

theorem textEntries_filterMap (target : targetConfig) (l : List String) :
    (l.filterMap fun line =>
        if trimStr line = "" then none else some (textLogEntry target (trimStr line))) =
      ((l.map trimStr).filter fun t => t ≠ "").map (textLogEntry target) := by
  induction l with
  | nil => rfl
  | cons a rest ih =>
    by_cases h : trimStr a = "" <;>
      simp [List.filterMap_cons, List.filter_cons, h, ih]

/-- C3: the text branch splits the body on newline, trims each line, skips the
lines that become empty, and emits one LogEntry per surviving line whose body
is the trimmed line text; the record count therefore equals the number of
non-empty-after-trim lines, and the example body yields the three records
alpha, beta, gamma. -/
theorem parseTextLogs_lines :
    ∀ (body : String) (target : targetConfig),
      (parseTextLogs body target).entries =
        ((((splitChar '\n' body.toList).map String.mk).map trimStr).filter fun t => t ≠ "").map
          (textLogEntry target) ∧
      (parseTextLogs body target).entries.length =
        ((((splitChar '\n' body.toList).map String.mk).map trimStr).filter fun t => t ≠ "").length ∧
      (∀ t, (textLogEntry target t).body = .str t) ∧
      (parseTextLogs "alpha\nbeta\n\n gamma " target).entries.map LogEntry.body =
        [.str "alpha", .str "beta", .str "gamma"] := by
  intro body target
  have h2 : (parseTextLogs body target).entries =
      ((((splitChar '\n' body.toList).map String.mk).map trimStr).filter fun t => t ≠ "").map
        (textLogEntry target) :=
    textEntries_filterMap target ((splitChar '\n' body.toList).map String.mk)
  refine ⟨h2, by rw [h2]; simp, fun t => rfl, rfl⟩

theorem mem_labelAttributes_not_found (data : JSONValue) (labels : List (String × String))
    (key path : String) (hmem : (key, path) ∈ labels)
    (hnull : extractValueByPath path data = .null) :
    (key, "NOT FOUND") ∈ labelAttributes data labels := by
  unfold labelAttributes
  refine List.mem_map.mpr ⟨(key, path), hmem, ?_⟩
  simp [hnull]

/-- C4: whenever a configured label's dot path extracts nothing from the
decoded payload, the emitted record's attribute for that label is exactly the
literal string NOT FOUND; a missing path never makes addLogRecord fail. -/
theorem addLogRecord_not_found :
    ∀ (data : JSONValue) (target : targetConfig) (key path : String),
      (key, path) ∈ target.Labels →
      extractValueByPath path data = .null →
      (key, "NOT FOUND") ∈ (addLogRecord data target).attributes := by
  intro data target key path hmem hnull
  exact mem_labelAttributes_not_found data target.Labels key path hmem hnull

/-- Witness for C4: the label missing_field with path does.not.exist over a
small object record yields the NOT FOUND attribute. -/
theorem addLogRecord_not_found_witness :
    ("missing_field", "NOT FOUND") ∈
      (addLogRecord (.obj [("id", .num 10)])
        ⟨"http://e", "GET", "", [], "svc", "info",
          [("missing_field", "does.not.exist")]⟩).attributes :=
  addLogRecord_not_found (.obj [("id", .num 10)])
    ⟨"http://e", "GET", "", [], "svc", "info", [("missing_field", "does.not.exist")]⟩
    "missing_field" "does.not.exist" (by decide) rfl

theorem extract_arr_eq (path : String) (elems : List JSONValue) (h : path ≠ "") :
    extractValueByPath path (.arr elems) =
      match extractMany path elems with
      | [] => JSONValue.null
      | results => .arr results := by
  rw [extractValueByPath]
  simp [h]

/-- C1: over a sequence node and a non-empty path, extraction recurses with the
full unmodified path into every element, collects the non-null results with
one-level splicing of sequence results, returns null for an empty aggregate and
the aggregate sequence otherwise — never a bare scalar, even for one match —
and the company.name example over the two-user array yields the sequence A, B. -/
theorem extractValueByPath_seq_spec :
    ∀ (path : String) (elems : List JSONValue),
      path ≠ "" →
      (extractValueByPath path (.arr elems) =
        match collectSplice (elems.map (extractValueByPath path)) with
        | [] => JSONValue.null
        | results => .arr results) ∧
      (extractValueByPath path (.arr elems) = .null ∨
        ∃ rs, rs ≠ [] ∧ extractValueByPath path (.arr elems) = .arr rs) ∧
      extractValueByPath "company.name" (.arr exampleUsers) = .arr [.str "A", .str "B"] := by
  intro path elems h
  have he := extract_arr_eq path elems h
  refine ⟨by rw [he, extractMany_eq_collectSplice], ?_, rfl⟩
  rw [he]
  rcases hm : extractMany path elems with _ | ⟨v, rest⟩
  · exact Or.inl rfl
  · exact Or.inr ⟨v :: rest, by simp, rfl⟩

/-- Witness for C1: the spec example itself, obtained from the theorem at the
path company.name over the two-user array. -/
theorem extractValueByPath_seq_spec_witness :
    extractValueByPath "company.name" (.arr exampleUsers) = .arr [.str "A", .str "B"] :=
  (extractValueByPath_seq_spec "company.name" exampleUsers (by decide)).2.2

theorem extractObjEntries_lookup (head : String) (entries : List (String × JSONValue)) :
    ∀ v, lookupKey head entries = some v → extractObjEntries head "" entries = v := by
  induction entries with
  | nil => intro v h; simp [lookupKey] at h
  | cons p rest ih =>
    obtain ⟨k', v'⟩ := p
    intro v h
    by_cases hk : k' = head
    · simp only [lookupKey, if_pos hk, Option.some.injEq] at h
      simp [extractObjEntries, hk, h]
    · simp only [lookupKey, if_neg hk] at h
      simpa [extractObjEntries, hk] using ih v h

theorem lookupKey_setBodyEntries (k : String) (entries : List (String × JSONValue)) :
    ∀ v, lookupKey k entries = some v →
      lookupKey k (setBodyEntries entries) = some (setBodyValue v) := by
  induction entries with
  | nil => intro v h; simp [lookupKey] at h
  | cons p rest ih =>
    obtain ⟨k', v'⟩ := p
    intro v h
    by_cases hk : k' = k
    · simp only [lookupKey, if_pos hk, Option.some.injEq] at h
      simp [setBodyEntries, lookupKey, hk, h]
    · simp only [lookupKey, if_neg hk] at h
      simpa [setBodyEntries, lookupKey, hk] using ih v h

/-- C10: a single-segment path whose key is present with a JSON null value
extracts to null — so the emitted attribute is the literal NOT FOUND, exactly
as for an absent key — while the structural body keeps that key with the
rendered string "null". -/
theorem null_value_not_found :
    ∀ (k : String) (entries : List (String × JSONValue)) (target : targetConfig) (lab : String),
      splitN2Chars k.toList = none →
      k ≠ "" →
      lookupKey k entries = some JSONValue.null →
      extractValueByPath k (.obj entries) = .null ∧
      ((lab, k) ∈ target.Labels →
        (lab, "NOT FOUND") ∈ (addLogRecord (.obj entries) target).attributes) ∧
      lookupKey k (setBodyEntries entries) = some (PValue.str "null") := by
  intro k entries target lab hsplit hk hlook
  have hht : headTail k = (k, "") := by unfold headTail; rw [hsplit]
  have hex : extractValueByPath k (.obj entries) = .null := by
    rw [extractValueByPath]
    simp only [if_neg hk, hht]
    exact extractObjEntries_lookup k entries JSONValue.null hlook
  refine ⟨hex, ?_, lookupKey_setBodyEntries k entries JSONValue.null hlook⟩
  intro hmem
  exact mem_labelAttributes_not_found (.obj entries) target.Labels lab k hmem hex

/-- Witness for C10: key a holding JSON null in a one-entry object, labelled by
lab with path a. -/
theorem null_value_not_found_witness :
    extractValueByPath "a" (.obj [("a", .null)]) = .null ∧
    ("lab", "NOT FOUND") ∈
      (addLogRecord (.obj [("a", .null)])
        ⟨"http://e", "GET", "", [], "svc", "info", [("lab", "a")]⟩).attributes ∧
    lookupKey "a" (setBodyEntries [("a", JSONValue.null)]) = some (PValue.str "null") := by
  have h := null_value_not_found "a" [("a", JSONValue.null)]
    ⟨"http://e", "GET", "", [], "svc", "info", [("lab", "a")]⟩ "lab" rfl (by decide) rfl
  exact ⟨h.1, h.2.1 (by decide), h.2.2⟩

theorem lookupKey_filter_ne {α : Type} (k : String) (l : List (String × α)) :
    lookupKey k (l.filter fun p => p.1 ≠ k) = none := by
  induction l with
  | nil => rfl
  | cons p rest ih =>
    obtain ⟨k', v⟩ := p
    by_cases hk : k' = k
    · simpa [List.filter_cons, hk] using ih
    · simpa [List.filter_cons, hk, lookupKey] using ih

theorem lookupKey_append {α : Type} (k : String) (l1 l2 : List (String × α))
    (h : lookupKey k l1 = none) : lookupKey k (l1 ++ l2) = lookupKey k l2 := by
  induction l1 with
  | nil => rfl
  | cons p rest ih =>
    obtain ⟨k', v⟩ := p
    by_cases hk : k' = k
    · simp [lookupKey, hk] at h
    · simp only [lookupKey, if_neg hk] at h
      simpa [List.cons_append, lookupKey, hk] using ih h

theorem headerGet_headerSet_same (hs : List (String × String)) (k v : String) :
    headerGet (headerSet hs k v) k = v := by
  unfold headerGet headerSet
  rw [lookupKey_append _ _ _ (lookupKey_filter_ne _ _)]
  simp [lookupKey]

/-- C7: the built request carries a body reader exactly when target.Body is
non-empty; with a body present and no Content-Type header set from the target
headers, the builder infers application/json when the trimmed body starts with
an opening brace and text/plain otherwise; a Content-Type explicitly set by the
target is never overridden. -/
theorem createRequest_content_type :
    ∀ (target : targetConfig),
      ((createRequest target).body = if target.Body = "" then none else some target.Body) ∧
      (target.Body ≠ "" → headerGet (applyHeaders target.Headers) "Content-Type" = "" →
        headerGet (createRequest target).headers "Content-Type" =
          (if strStartsWith (trimStr target.Body) "\x7b" then "application/json"
           else "text/plain")) ∧
      (∀ v, v ≠ "" → headerGet (applyHeaders target.Headers) "Content-Type" = v →
        headerGet (createRequest target).headers "Content-Type" = v) := by
  intro target
  have hh : (createRequest target).headers =
      (if target.Body ≠ "" ∧ headerGet (applyHeaders target.Headers) "Content-Type" = "" then
        if strStartsWith (trimStr target.Body) "\x7b" then
          headerSet (applyHeaders target.Headers) "Content-Type" "application/json"
        else headerSet (applyHeaders target.Headers) "Content-Type" "text/plain"
      else applyHeaders target.Headers) := rfl
  refine ⟨rfl, ?_, ?_⟩
  · intro hb hct
    rw [hh, if_pos (And.intro hb hct)]
    by_cases hs : strStartsWith (trimStr target.Body) "\x7b"
    · rw [if_pos hs, if_pos hs, headerGet_headerSet_same]
    · rw [if_neg hs, if_neg hs, headerGet_headerSet_same]
  · intro v hv hct
    have hno : ¬(target.Body ≠ "" ∧ headerGet (applyHeaders target.Headers) "Content-Type" = "") := by
      rintro ⟨-, hB⟩
      exact hv (hct.symm.trans hB)
    rw [hh, if_neg hno]
    exact hct

/-- Witness for C7: a JSON-shaped body infers application/json, a plain body
infers text/plain, and an explicit text/xml header survives; the JSON target's
request carries its body. -/
theorem createRequest_content_type_witness :
    (createRequest ⟨"http://e", "POST", "\x7b\"k\":\"v\"\x7d", [], "svc", "info", []⟩).body =
      some "\x7b\"k\":\"v\"\x7d" ∧
    headerGet
        (createRequest ⟨"http://e", "POST", "\x7b\"k\":\"v\"\x7d", [], "svc", "info", []⟩).headers
        "Content-Type" = "application/json" ∧
    headerGet (createRequest ⟨"http://e", "POST", "plain text", [], "svc", "info", []⟩).headers
        "Content-Type" = "text/plain" ∧
    headerGet
        (createRequest ⟨"http://e", "POST", "plain text", [("Content-Type", "text/xml")],
          "svc", "info", []⟩).headers "Content-Type" = "text/xml" := by
  have h1 :=
    createRequest_content_type ⟨"http://e", "POST", "\x7b\"k\":\"v\"\x7d", [], "svc", "info", []⟩
  have h2 := createRequest_content_type ⟨"http://e", "POST", "plain text", [], "svc", "info", []⟩
  have h3 := createRequest_content_type
    ⟨"http://e", "POST", "plain text", [("Content-Type", "text/xml")], "svc", "info", []⟩
  exact ⟨h1.1.trans rfl, (h1.2.1 (by decide) rfl).trans rfl, (h2.2.1 (by decide) rfl).trans rfl,
    h3.2.2 "text/xml" (by decide) rfl⟩

/-- C9: a poll whose response has status code at least 400 returns the hard
error carrying the numeric code and the status text, and delivers no batch to
the sink; and a successful parse with zero records is not an error — the poll
returns cleanly with no batch forwarded. -/
theorem pollTarget_spec :
    ∀ (decode : String → Option JSONValue) (target : targetConfig) (resp : HTTPResponse),
      (resp.statusCode ≥ 400 →
        pollTarget decode target (.ok resp) =
          .error ("HTTP error: " ++ toString resp.statusCode ++ " " ++ resp.status) ∧
        delivered (pollTarget decode target (.ok resp)) = []) ∧
      (∀ batch,
        resp.statusCode < 400 →
        parseLogs decode resp.contentType resp.body target = .ok batch →
        batch.entries = [] →
        pollTarget decode target (.ok resp) = .ok [] ∧
        delivered (pollTarget decode target (.ok resp)) = []) := by
  intro decode target resp
  have hp : pollTarget decode target (.ok resp) =
      (if resp.statusCode ≥ 400 then
        Except.error ("HTTP error: " ++ toString resp.statusCode ++ " " ++ resp.status)
      else
        match parseLogs decode resp.contentType resp.body target with
        | .error e => .error ("failed to parse logs: " ++ e)
        | .ok logs => if logs.entries.length > 0 then .ok [logs] else .ok []) := rfl
  constructor
  · intro h
    have he : pollTarget decode target (.ok resp) =
        .error ("HTTP error: " ++ toString resp.statusCode ++ " " ++ resp.status) := by
      rw [hp, if_pos h]
    exact ⟨he, by rw [he]; rfl⟩
  · intro batch hlt hparse hempty
    have hge : ¬resp.statusCode ≥ 400 := by omega
    have he : pollTarget decode target (.ok resp) = .ok [] := by
      rw [hp, if_neg hge, hparse]
      simp [hempty]
    exact ⟨he, by rw [he]; rfl⟩

/-- Witness for C9: a 500 response is a hard error delivering nothing, and a
200 text response whose lines all trim to empty yields a clean poll with no
batch delivered. -/
theorem pollTarget_spec_witness :
    pollTarget (fun _ => none) ⟨"http://e", "GET", "", [], "svc", "info", []⟩
        (.ok ⟨500, "500 Internal Server Error", "text/plain", "body"⟩) =
      .error "HTTP error: 500 500 Internal Server Error" ∧
    delivered (pollTarget (fun _ => none) ⟨"http://e", "GET", "", [], "svc", "info", []⟩
        (.ok ⟨500, "500 Internal Server Error", "text/plain", "body"⟩)) = [] ∧
    pollTarget (fun _ => none) ⟨"http://e", "GET", "", [], "svc", "info", []⟩
        (.ok ⟨200, "200 OK", "text/plain", "\n \n"⟩) = .ok [] := by
  have h1 := (pollTarget_spec (fun _ => none) ⟨"http://e", "GET", "", [], "svc", "info", []⟩
    ⟨500, "500 Internal Server Error", "text/plain", "body"⟩).1 (by decide)
  have h2 := (pollTarget_spec (fun _ => none) ⟨"http://e", "GET", "", [], "svc", "info", []⟩
    ⟨200, "200 OK", "text/plain", "\n \n"⟩).2
    (parseTextLogs "\n \n" ⟨"http://e", "GET", "", [], "svc", "info", []⟩) (by decide) rfl rfl
  exact ⟨h1.1.trans rfl, h1.2, h2.1⟩

/-- C8: evaluation of the validation code. The empty-targets, missing-endpoint
and unparsable-endpoint errors are distinct, defaults and the interval coercion
are filled in on success — but the endpoint "/logs", which has no scheme and no
host (its getScheme scheme is empty), is accepted by Validate, because
url.ParseRequestURI also accepts rooted paths; this contradicts both the claim
and the code's own errInvalidEndpoint message requiring
<scheme>://<hostname>[:<port>]. -/
theorem validate_code_eval :
    targetConfig.Validate ⟨"", "GET", "", [], "", "", []⟩ =
      .error "endpoint must be specified" ∧
    targetConfig.Validate ⟨"invalid-url", "GET", "", [], "", "", []⟩ =
      .error "\"endpoint\" must be in the form of <scheme>://<hostname>[:<port>]" ∧
    Config.Validate ⟨10000000000, []⟩ = .error "no targets configured" ∧
    targetConfig.Validate ⟨"http://example.com/logs", "", "", [], "", "", []⟩ =
      .ok ⟨"http://example.com/logs", "GET", "", [], "logs-receiver", "info", []⟩ ∧
    targetConfig.Validate ⟨"/logs", "", "", [], "", "", []⟩ =
      .ok ⟨"/logs", "GET", "", [], "logs-receiver", "info", []⟩ ∧
    getScheme "/logs" = some ("", "/logs") ∧
    Config.Validate ⟨0, [⟨"/logs", "", "", [], "", "", []⟩]⟩ =
      .ok ⟨30000000000, [⟨"/logs", "GET", "", [], "logs-receiver", "info", []⟩]⟩ :=
  ⟨rfl, rfl, rfl, rfl, rfl, rfl, rfl⟩

end LogsReceiver
